import Mathlib

/-!
Verification of the dashboard WebSocket message handler of
`frontend/src/app/dashboard/page.tsx` (the `ws.onmessage` callback of the
`Dashboard` component).

The handler owns two pieces of client state:
  * `transcripts : TranscriptEntry[]` (React `useState<TranscriptEntry[]>([])`),
  * `activeCalls : Record<string, CallSession>` (React `useState({})`),
and reacts to five message types: `initial_data`, `transcript`, `call_status`,
`call_removed`, `transcripts_cleared`.

Embedding conventions:
  * the `timestamp : string` field is only ever read through
    `new Date(s).getTime()`, so it is embedded directly as that
    epoch-millisecond value (an `Int`);
  * a JavaScript object used as a string-keyed map is embedded as an
    insertion-ordered association list; `{...prev, [k]: v}` replaces the value
    in place when the key exists and appends otherwise, `delete` removes the
    key, both mirrored below;
  * the whole callback body runs inside `try { ... } catch { ... }`; a branch
    of the source that throws before any state update (for instance
    `message.data.session.status` when `session` is absent) is embedded as the
    identity on the state;
  * optional / possibly-missing payload fields are embedded as `Option`s.
-/

/-- A transcript record as received and retained by the dashboard (source
interface `TranscriptEntry`).  `timestampMs` stands for
`new Date(timestamp).getTime()`, the only way the handler reads the
`timestamp` string. -/
structure TranscriptEntry where
  id : String
  role : String
  transcript : String
  timestampMs : Int
  call_id : String
  confidence : Rat
deriving DecidableEq, Repr

/-- A call session as received by the dashboard (source interface
`CallSession`).  The `participants` and `metadata` records carry values the
handler never inspects; their values are abstracted to strings. -/
structure CallSession where
  call_id : String
  status : String
  start_time : String
  participants : List (String × String)
  metadata : List (String × String)
deriving DecidableEq, Repr

/-- An insertion-ordered association list standing for a JavaScript
string-keyed object of call sessions. -/
abbrev CallMap := List (String × CallSession)

/-- Payload of a `call_status` message: `message.data` with its `call_id` and
`session` fields; `session` is optional because the handler dereferences it
and a missing field raises a caught `TypeError`. -/
structure CallStatusData where
  call_id : String
  session : Option CallSession
deriving DecidableEq, Repr

/-- Payload of a `call_removed` message: `message.data`, whose `call_id`
field may be absent (the handler guards with `message.data?.call_id`). -/
structure CallRemovedData where
  call_id : Option String
deriving DecidableEq, Repr

/-- A parsed inbound WebSocket message (source interface `WebSocketMessage`):
the five known `type` values, each with the payload fields its handler case
reads, plus `unknownType` for any other `type` string (the `switch` has no
default case). -/
inductive WsMessage where
  | initialData (transcripts : Option (List TranscriptEntry)) (active_calls : Option CallMap)
  | transcript (data : Option TranscriptEntry)
  | callStatus (data : Option CallStatusData)
  | callRemoved (data : Option CallRemovedData)
  | transcriptsCleared
  | unknownType
deriving DecidableEq, Repr

/-- An inbound WebSocket frame: either text that `JSON.parse` rejects (the
exception is caught by the surrounding `try`) or a parsed message. -/
inductive WsFrame where
  | malformedJson
  | parsed (m : WsMessage)
deriving DecidableEq, Repr

/-- The dashboard state touched by the handler: the retained transcript list
and the active-calls mapping. -/
structure DashState where
  transcripts : List TranscriptEntry
  activeCalls : CallMap
deriving DecidableEq, Repr

/-- Initial dashboard state: `useState<TranscriptEntry[]>([])` and
`useState<Record<string, CallSession>>({})`. -/
def dashInit : DashState := { transcripts := [], activeCalls := [] }

/-- JavaScript `{...prev, [k]: v}`: if `k` is already a key its value is
replaced in place (property order kept), otherwise the pair is appended. -/
def jsSet (m : CallMap) (k : String) (v : CallSession) : CallMap :=
  if m.any (fun p => p.1 == k) then m.map (fun p => if p.1 == k then (k, v) else p)
  else m ++ [(k, v)]

/-- JavaScript `delete obj[k]` on a copy of the object: the key is removed;
removing an absent key is a no-op. -/
def jsDelete (m : CallMap) (k : String) : CallMap :=
  m.filter (fun p => !(p.1 == k))

/-- JavaScript property lookup `obj[k]` on the embedded map. -/
def jsLookup (m : CallMap) (k : String) : Option CallSession :=
  (m.find? (fun p => p.1 == k)).map Prod.snd

/-- JavaScript `arr.slice(-n)`: the last `min n arr.length` elements. -/
def jsSliceLast (n : Nat) (l : List TranscriptEntry) : List TranscriptEntry :=
  l.drop (l.length - n)

/-- The duplicate test of the `transcript` case, verbatim from the source:
`t.id === data.id || (t.transcript === data.transcript && t.role === data.role
&& Math.abs(new Date(t.timestamp).getTime() - new Date(data.timestamp).getTime()) < 1000)`,
for `t` a retained entry and `d` the candidate `message.data`. -/
def isDupOf (d t : TranscriptEntry) : Bool :=
  t.id == d.id ||
    (t.transcript == d.transcript && t.role == d.role &&
      decide ((t.timestampMs - d.timestampMs).natAbs < 1000))

/-- The `transcript` case body: if some retained entry matches the duplicate
test the list is returned unchanged, otherwise
`[...prev, message.data].slice(-50)`. -/
def handleTranscriptData (prev : List TranscriptEntry) (d : TranscriptEntry) : List TranscriptEntry :=
  if prev.any (isDupOf d) then prev else jsSliceLast 50 (prev ++ [d])

/-- The comparator of the `initial_data` sort,
`(a, b) => new Date(a.timestamp).getTime() - new Date(b.timestamp).getTime()`,
as the boolean order it induces. -/
def tsLe (a b : TranscriptEntry) : Bool :=
  decide (a.timestampMs ≤ b.timestampMs)

/-- JavaScript `arr.sort(byTimestamp)`: `Array.prototype.sort` is a stable
sort, and with the numeric comparator above it orders ascending by
`timestampMs`; embedded as the stable `List.mergeSort`. -/
def jsSortByTimestamp (l : List TranscriptEntry) : List TranscriptEntry :=
  l.mergeSort tsLe

/-- The `initial_data` dedup filter, verbatim from the source:
`arr.filter((t, index, arr) => index === arr.findIndex(u => u.id === t.id))`. -/
def jsDedupById (l : List TranscriptEntry) : List TranscriptEntry :=
  (l.enum.filter fun p => l.findIdx (fun u => u.id == p.2.id) == p.1).map Prod.snd

/-- JavaScript `s.toLowerCase()`: every character lowered (ASCII range is all
the source compares against). -/
def jsToLower (s : String) : String :=
  String.mk (s.data.map Char.toLower)

/-- The `ws.onmessage` switch on a parsed message, case by case from the
source.  UI-only effects (`setShowClearMessage`, `console.log`, timers) are
outside the two state components and are not modelled. -/
def handleMessage (s : DashState) : WsMessage → DashState
  | .initialData ts ac =>
    let s1 := match ts with
      | some l => { s with transcripts := jsDedupById (jsSortByTimestamp l) }
      | none => s
    match ac with
    | some m => { s1 with activeCalls := m }
    | none => s1
  | .transcript d =>
    match d with
    | some e => { s with transcripts := handleTranscriptData s.transcripts e }
    | none => s
  | .callStatus d =>
    match d with
    | some dd =>
      match dd.session with
      | some sess =>
        let st := jsToLower sess.status
        let s1 := { s with activeCalls := jsSet s.activeCalls dd.call_id sess }
        if st == "ended" || st == "failed" then { s1 with transcripts := [] } else s1
      | none => s
    | none => s
  | .callRemoved d =>
    match d with
    | some dd =>
      match dd.call_id with
      | some cid =>
        if cid == "" then s
        else { s with transcripts := [], activeCalls := jsDelete s.activeCalls cid }
      | none => s
    | none => s
  | .transcriptsCleared => { s with transcripts := [] }
  | .unknownType => s

/-- One inbound frame: `JSON.parse` failure is caught and leaves the state
unchanged; otherwise the parsed message is dispatched. -/
def handleFrame (s : DashState) : WsFrame → DashState
  | .malformedJson => s
  | .parsed m => handleMessage s m

/-- Duplicate predicate in the words of the claim: some currently retained
record has an identical id, or has identical role and identical text and a
timestamp differing from the candidate's by strictly less than 1 second. -/
def specIsDuplicate (prev : List TranscriptEntry) (d : TranscriptEntry) : Prop :=
  ∃ t ∈ prev, t.id = d.id ∨
    (t.role = d.role ∧ t.transcript = d.transcript ∧ (t.timestampMs - d.timestampMs).natAbs < 1000)

instance specIsDuplicate.instDecidable (prev : List TranscriptEntry) (d : TranscriptEntry) :
    Decidable (specIsDuplicate prev d) := by
  unfold specIsDuplicate; infer_instance

/-- Dedup of the spec's words for `initial_data`: keep each record whose id
has not occurred earlier (the first occurrence of every id is kept), `seen`
accumulating the ids already encountered. -/
def specKeepFirstById (seen : List String) : List TranscriptEntry → List TranscriptEntry
  | [] => []
  | t :: rest =>
    if t.id ∈ seen then specKeepFirstById seen rest
    else t :: specKeepFirstById (t.id :: seen) rest

/-- Mutual non-duplication of two fragments, `a` the one appended earlier and
`b` the later candidate: the duplicate test of the `transcript` case does not
flag `a` when `b` arrives. -/
def nonDupPair (a b : TranscriptEntry) : Bool :=
  !(isDupOf b a)

/-- Hypothesis of the amended capacity claim: an `initial_data` message
carries at most 50 transcripts; every other message is unconstrained. -/
def initialDataCapped : WsMessage → Prop
  | .initialData (some l) _ => l.length ≤ 50
  | _ => True

instance initialDataCapped.instDecidable (m : WsMessage) : Decidable (initialDataCapped m) :=
  match m with
  | .initialData (some l) _ => inferInstanceAs (Decidable (l.length ≤ 50))
  | .initialData none _ => inferInstanceAs (Decidable True)
  | .transcript _ => inferInstanceAs (Decidable True)
  | .callStatus _ => inferInstanceAs (Decidable True)
  | .callRemoved _ => inferInstanceAs (Decidable True)
  | .transcriptsCleared => inferInstanceAs (Decidable True)
  | .unknownType => inferInstanceAs (Decidable True)

/-- Concrete fragment family: distinct ids and texts, timestamps 1 second
apart and ascending, so no two are duplicates of each other. -/
def mkFrag (i : Nat) : TranscriptEntry :=
  { id := toString i, role := "user", transcript := toString i,
    timestampMs := (1000 * i : Nat), call_id := "c1", confidence := 1 }

/-- Concrete fragment family with strictly descending timestamps (fragment 0
is the newest), still pairwise non-duplicate. -/
def mkFragDesc (i : Nat) : TranscriptEntry :=
  { id := toString i, role := "user", transcript := toString i,
    timestampMs := (1000 * (100 - i) : Nat), call_id := "c1", confidence := 1 }

/-- Concrete `initial_data` payload of 51 distinct-id transcripts. -/
def ts51 : List TranscriptEntry := (List.range 51).map mkFrag

/-- Concrete sequence of 51 pairwise non-duplicate fragments arriving in
descending timestamp order. -/
def fsDesc : List TranscriptEntry := (List.range 51).map mkFragDesc

/-- The 51 `transcript` messages carrying `fsDesc`. -/
def c4msgs : List WsMessage := fsDesc.map fun f => WsMessage.transcript (some f)

/-- Retained transcript list after processing `c4msgs` from the initial
state. -/
def c4final : List TranscriptEntry := (c4msgs.foldl handleMessage dashInit).transcripts

/-- The fragment of the concrete scenario of the spec:
id a1, call c1, role user, text hello. -/
def c6frag : TranscriptEntry :=
  { id := "a1", role := "user", transcript := "hello", timestampMs := 0,
    call_id := "c1", confidence := 1 }

/-- A session for call c1 whose status is the terminal `ended`. -/
def c6sess : CallSession :=
  { call_id := "c1", status := "ended", start_time := "t0",
    participants := [], metadata := [] }

/-- A near-duplicate of `c6frag`: same role and text, timestamp within one
second, different id. -/
def c1frag2 : TranscriptEntry :=
  { id := "b2", role := "user", transcript := "hello", timestampMs := 500,
    call_id := "c1", confidence := 1 }

/-- The message sequence of the concrete scenario: transcript a1, terminal
call_status for c1, transcripts_cleared, call_removed for c1. -/
def c6msgs : List WsMessage :=
  [WsMessage.transcript (some c6frag),
   WsMessage.callStatus (some { call_id := "c1", session := some c6sess }),
   WsMessage.transcriptsCleared,
   WsMessage.callRemoved (some { call_id := some "c1" })]

/-- A small concrete message sequence whose `initial_data` payload is within
capacity. -/
def c2msgs : List WsMessage :=
  [WsMessage.initialData (some [c6frag]) (some []),
   WsMessage.transcriptsCleared]

/-! Helper lemmas shared by the claim theorems. -/

/-- The boolean duplicate scan of the source coincides with the duplicate
predicate in the claim's words. -/
theorem any_isDupOf_iff (prev : List TranscriptEntry) (d : TranscriptEntry) :
    prev.any (isDupOf d) = true ↔ specIsDuplicate prev d := by
  rw [List.any_eq_true]
  unfold specIsDuplicate
  constructor
  · rintro ⟨t, ht, h⟩
    refine ⟨t, ht, ?_⟩
    simp only [isDupOf, Bool.or_eq_true, Bool.and_eq_true, beq_iff_eq,
      decide_eq_true_iff] at h
    tauto
  · rintro ⟨t, ht, h⟩
    refine ⟨t, ht, ?_⟩
    simp only [isDupOf, Bool.or_eq_true, Bool.and_eq_true, beq_iff_eq,
      decide_eq_true_iff]
    tauto

theorem jsSliceLast_length_le (n : Nat) (l : List TranscriptEntry) :
    (jsSliceLast n l).length ≤ n := by
  simp only [jsSliceLast, List.length_drop]
  omega

theorem jsSliceLast_of_length_le {n : Nat} {l : List TranscriptEntry} (h : l.length ≤ n) :
    jsSliceLast n l = l := by
  unfold jsSliceLast
  have h0 : l.length - n = 0 := by omega
  rw [h0, List.drop_zero]

theorem mem_of_mem_jsSliceLast {n : Nat} {l : List TranscriptEntry} {x : TranscriptEntry}
    (h : x ∈ jsSliceLast n l) : x ∈ l :=
  List.mem_of_mem_drop h

/-- Re-slicing after appending: taking the last `n` of (last `n` of `l`, then
`r`) is taking the last `n` of `l ++ r`. -/
theorem jsSliceLast_append (n : Nat) (l r : List TranscriptEntry) :
    jsSliceLast n (jsSliceLast n l ++ r) = jsSliceLast n (l ++ r) := by
  by_cases h : l.length ≤ n
  · have h0 : l.length - n = 0 := by omega
    unfold jsSliceLast
    rw [h0, List.drop_zero]
  · push_neg at h
    have hlen : (List.drop (l.length - n) l).length = n := by
      rw [List.length_drop]; omega
    unfold jsSliceLast
    rw [List.length_append, List.length_append, hlen]
    rw [List.drop_append_eq_append_drop, List.drop_append_eq_append_drop]
    rw [hlen]
    have e1 : n + r.length - n = r.length := by omega
    rw [e1]
    by_cases hr : r.length ≤ n
    · have e2 : r.length - n = 0 := by omega
      have e3 : l.length + r.length - n - l.length = 0 := by omega
      have e4 : l.length + r.length - n = (l.length - n) + r.length := by omega
      rw [e2, e3, e4, List.drop_zero, List.drop_drop]
    · push_neg at hr
      have e3 : l.length + r.length - n - l.length = r.length - n := by omega
      rw [e3]
      have d1 : List.drop r.length (List.drop (l.length - n) l) = [] := by
        apply List.drop_eq_nil_of_le
        rw [hlen]; omega
      have d2 : List.drop (l.length + r.length - n) l = [] := by
        apply List.drop_eq_nil_of_le
        omega
      rw [d1, d2]

/-- When no element of the front part matches, the first match of the whole
list is found past the front part. -/
theorem findIdx_append_of_forall_false {α : Type} (p : α → Bool) (l₂ : List α) :
    ∀ l₁ : List α, (∀ a ∈ l₁, p a = false) →
      List.findIdx p (l₁ ++ l₂) = l₁.length + List.findIdx p l₂ := by
  intro l₁
  induction l₁ with
  | nil => intro _; simp
  | cons a t ih =>
    intro h
    have ha : p a = false := h a (List.mem_cons_self a t)
    rw [List.cons_append, List.findIdx_cons, ha]
    simp only [cond_false]
    rw [ih (fun x hx => h x (List.mem_cons_of_mem a hx))]
    simp only [List.length_cons]
    omega

/-- When some element of the front part matches, the first match of the whole
list lies inside the front part. -/
theorem findIdx_append_lt {α : Type} (p : α → Bool) (l₂ : List α) :
    ∀ l₁ : List α, (∃ a ∈ l₁, p a = true) →
      List.findIdx p (l₁ ++ l₂) < l₁.length := by
  intro l₁
  induction l₁ with
  | nil => rintro ⟨a, ha, -⟩; simp at ha
  | cons a t ih =>
    rintro ⟨b, hb, hpb⟩
    rw [List.cons_append, List.findIdx_cons]
    by_cases hpa : p a = true
    · rw [hpa]; simp
    · have hpa' : p a = false := by
        cases hq : p a with
        | false => rfl
        | true => exact absurd hq hpa
      rw [hpa']
      simp only [cond_false, List.length_cons]
      have hbt : b ∈ t := by
        rcases List.mem_cons.mp hb with hba | hbt
        · exact absurd (hba ▸ hpb) (by rw [hpa']; simp)
        · exact hbt
      have := ih ⟨b, hbt, hpb⟩
      omega

/-- The filter/findIndex dedup of the source equals the recursive
keep-first-occurrence dedup, generalized over a processed front part `pre`
whose ids are exactly `seen`. -/
theorem dedup_aux (L : List TranscriptEntry) :
    ∀ (l pre : List TranscriptEntry) (seen : List String),
      L = pre ++ l →
      (∀ a : String, a ∈ seen ↔ ∃ u ∈ pre, u.id = a) →
      ((List.enumFrom pre.length l).filter
          (fun p => L.findIdx (fun u => u.id == p.2.id) == p.1)).map Prod.snd
        = specKeepFirstById seen l := by
  intro l
  induction l with
  | nil => intro pre seen _ _; simp [specKeepFirstById]
  | cons t rest ih =>
    intro pre seen hL hinv
    rw [List.enumFrom_cons]
    by_cases hseen : t.id ∈ seen
    · obtain ⟨u, hu, hid⟩ := (hinv t.id).mp hseen
      have hlt : L.findIdx (fun u => u.id == t.id) < pre.length := by
        rw [hL]
        exact findIdx_append_lt _ _ pre ⟨u, hu, by simp [hid]⟩
      have hne : (L.findIdx (fun u => u.id == t.id) == pre.length) = false := by
        rw [beq_eq_false_iff_ne]; omega
      rw [List.filter_cons_of_neg (by simpa using hne)]
      have hstep := ih (pre ++ [t]) seen
        (by rw [hL, List.append_assoc]; rfl)
        (by
          intro a
          constructor
          · intro ha
            obtain ⟨u', hu', hid'⟩ := (hinv a).mp ha
            exact ⟨u', List.mem_append_left _ hu', hid'⟩
          · rintro ⟨u', hu', hid'⟩
            rcases List.mem_append.mp hu' with h1 | h1
            · exact (hinv a).mpr ⟨u', h1, hid'⟩
            · have : u' = t := by simpa using h1
              rw [this] at hid'
              rw [← hid']; exact hseen)
      rw [List.length_append] at hstep
      simp only [List.length_cons, List.length_nil, Nat.zero_add] at hstep
      rw [hstep]
      simp only [specKeepFirstById]
      rw [if_pos hseen]
    · have hall : ∀ u ∈ pre, (fun u : TranscriptEntry => u.id == t.id) u = false := by
        intro u hu
        simp only [beq_eq_false_iff_ne]
        intro hcontra
        exact hseen ((hinv t.id).mpr ⟨u, hu, hcontra⟩)
      have hidx : L.findIdx (fun u => u.id == t.id) = pre.length := by
        rw [hL, findIdx_append_of_forall_false _ _ pre hall, List.findIdx_cons]
        simp
      rw [List.filter_cons_of_pos (by simp [hidx])]
      rw [List.map_cons]
      have hstep := ih (pre ++ [t]) (t.id :: seen)
        (by rw [hL, List.append_assoc]; rfl)
        (by
          intro a
          constructor
          · intro ha
            rcases List.mem_cons.mp ha with h1 | h1
            · exact ⟨t, List.mem_append_right _ (List.mem_cons_self t []), h1.symm⟩
            · obtain ⟨u', hu', hid'⟩ := (hinv a).mp h1
              exact ⟨u', List.mem_append_left _ hu', hid'⟩
          · rintro ⟨u', hu', hid'⟩
            rcases List.mem_append.mp hu' with h1 | h1
            · exact List.mem_cons_of_mem _ ((hinv a).mpr ⟨u', h1, hid'⟩)
            · have : u' = t := by simpa using h1
              rw [this] at hid'
              rw [← hid']
              exact List.mem_cons_self t.id seen)
      rw [List.length_append] at hstep
      simp only [List.length_cons, List.length_nil, Nat.zero_add] at hstep
      rw [hstep]
      simp only [specKeepFirstById]
      rw [if_neg hseen]

/-- The source's `initial_data` dedup filter computes keep-first-occurrence
by id. -/
theorem jsDedupById_eq_spec (l : List TranscriptEntry) :
    jsDedupById l = specKeepFirstById [] l := by
  have h := dedup_aux l l [] [] rfl (by simp)
  simpa [jsDedupById, List.enum] using h

theorem specKeepFirstById_sublist :
    ∀ (l : List TranscriptEntry) (seen : List String),
      (specKeepFirstById seen l).Sublist l := by
  intro l
  induction l with
  | nil => intro seen; simp [specKeepFirstById]
  | cons t rest ih =>
    intro seen
    simp only [specKeepFirstById]
    split
    · exact (ih seen).cons t
    · exact (ih (t.id :: seen)).cons₂ t

theorem specKeepFirstById_id_not_mem_seen :
    ∀ (l : List TranscriptEntry) (seen : List String) (u : TranscriptEntry),
      u ∈ specKeepFirstById seen l → u.id ∉ seen := by
  intro l
  induction l with
  | nil => intro seen u hu; simp [specKeepFirstById] at hu
  | cons t rest ih =>
    intro seen u hu
    simp only [specKeepFirstById] at hu
    by_cases hs : t.id ∈ seen
    · rw [if_pos hs] at hu
      exact ih seen u hu
    · rw [if_neg hs] at hu
      rcases List.mem_cons.mp hu with h1 | h1
      · rw [h1]; exact hs
      · intro hcontra
        exact ih (t.id :: seen) u h1 (List.mem_cons_of_mem _ hcontra)

theorem specKeepFirstById_ids_nodup :
    ∀ (l : List TranscriptEntry) (seen : List String),
      ((specKeepFirstById seen l).map (fun t => t.id)).Nodup := by
  intro l
  induction l with
  | nil => intro seen; simp [specKeepFirstById]
  | cons t rest ih =>
    intro seen
    simp only [specKeepFirstById]
    split
    · exact ih seen
    · rw [List.map_cons, List.nodup_cons]
      refine ⟨?_, ih (t.id :: seen)⟩
      intro hmem
      obtain ⟨u, hu, hid⟩ := List.mem_map.mp hmem
      have := specKeepFirstById_id_not_mem_seen rest (t.id :: seen) u hu
      rw [hid] at this
      exact this (List.mem_cons_self t.id seen)

theorem specKeepFirstById_covers :
    ∀ (l : List TranscriptEntry) (seen : List String) (t : TranscriptEntry),
      t ∈ l → t.id ∉ seen → ∃ u ∈ specKeepFirstById seen l, u.id = t.id := by
  intro l
  induction l with
  | nil => intro seen t ht; simp at ht
  | cons h rest ih =>
    intro seen t ht hseen
    simp only [specKeepFirstById]
    by_cases hh : h.id ∈ seen
    · rw [if_pos hh]
      rcases List.mem_cons.mp ht with heq | htr
      · exact absurd (heq ▸ hseen) (fun hc => hc hh)
      · exact ih seen t htr hseen
    · rw [if_neg hh]
      rcases List.mem_cons.mp ht with heq | htr
      · exact ⟨h, List.mem_cons_self _ _, by rw [heq]⟩
      · by_cases hid : t.id = h.id
        · exact ⟨h, List.mem_cons_self _ _, hid.symm⟩
        · obtain ⟨u, hu, hid'⟩ := ih (h.id :: seen) t htr
            (by
              intro hc
              rcases List.mem_cons.mp hc with h1 | h1
              · exact hid h1
              · exact hseen h1)
          exact ⟨u, List.mem_cons_of_mem _ hu, hid'⟩

theorem specKeepFirstById_of_ids_nodup :
    ∀ (l : List TranscriptEntry) (seen : List String),
      (∀ t ∈ l, t.id ∉ seen) → ((l.map (fun t => t.id)).Nodup) →
      specKeepFirstById seen l = l := by
  intro l
  induction l with
  | nil => intro seen _ _; simp [specKeepFirstById]
  | cons t rest ih =>
    intro seen hs hnd
    simp only [specKeepFirstById]
    rw [if_neg (hs t (List.mem_cons_self t rest))]
    congr 1
    rw [List.map_cons, List.nodup_cons] at hnd
    refine ih (t.id :: seen) ?_ hnd.2
    intro u hu hc
    rcases List.mem_cons.mp hc with h1 | h1
    · exact hnd.1 (List.mem_map.mpr ⟨u, hu, h1⟩)
    · exact hs u (List.mem_cons_of_mem _ hu) h1

theorem tsLe_trans : ∀ a b c : TranscriptEntry,
    tsLe a b = true → tsLe b c = true → tsLe a c = true := by
  intro a b c
  simp only [tsLe, decide_eq_true_iff]
  omega

theorem tsLe_total : ∀ a b : TranscriptEntry, (tsLe a b || tsLe b a) = true := by
  intro a b
  simp only [tsLe, Bool.or_eq_true, decide_eq_true_iff]
  omega

/-- The embedded `initial_data` sort orders ascending by timestamp. -/
theorem sorted_jsSortByTimestamp (l : List TranscriptEntry) :
    (jsSortByTimestamp l).Sorted (fun a b : TranscriptEntry => a.timestampMs ≤ b.timestampMs) := by
  have h := List.sorted_mergeSort tsLe_trans tsLe_total l
  exact h.imp (fun hab => by simpa [tsLe, decide_eq_true_iff] using hab)

theorem jsSortByTimestamp_perm (l : List TranscriptEntry) :
    (jsSortByTimestamp l).Perm l :=
  List.mergeSort_perm l tsLe

theorem jsSet_any_key (m : CallMap) (k : String) (v : CallSession) :
    (jsSet m k v).any (fun p => p.1 == k) = true := by
  unfold jsSet
  split
  · rename_i h
    rw [List.any_eq_true] at h ⊢
    obtain ⟨p, hp, hpk⟩ := h
    refine ⟨(k, v), List.mem_map.mpr ⟨p, hp, by rw [if_pos hpk]⟩, by simp⟩
  · rw [List.any_append]
    simp

theorem jsSet_map_replace_eq (m : CallMap) (k : String) (v : CallSession) :
    (jsSet m k v).map (fun p => if p.1 == k then (k, v) else p) = jsSet m k v := by
  unfold jsSet
  split
  · rw [List.map_map]
    apply List.map_congr_left
    intro p _
    simp only [Function.comp]
    by_cases hp : (p.1 == k) = true
    · rw [if_pos hp]
      simp
    · rw [if_neg hp, if_neg hp]
  · rename_i h
    rw [List.map_append]
    have h1 : m.map (fun p => if p.1 == k then (k, v) else p) = m := by
      conv_rhs => rw [← List.map_id m]
      apply List.map_congr_left
      intro p hp
      rw [if_neg]
      · rfl
      · intro hc
        rw [List.any_eq_true] at h
        exact h ⟨p, hp, hc⟩
    rw [h1]
    simp

theorem jsSet_idem (m : CallMap) (k : String) (v : CallSession) :
    jsSet (jsSet m k v) k v = jsSet m k v := by
  have hkey := jsSet_any_key m k v
  have hstep : jsSet (jsSet m k v) k v
      = if (jsSet m k v).any (fun p => p.1 == k)
        then (jsSet m k v).map (fun p => if p.1 == k then (k, v) else p)
        else (jsSet m k v) ++ [(k, v)] := rfl
  rw [hstep, if_pos hkey]
  exact jsSet_map_replace_eq m k v

theorem find?_map_replace (k : String) (v : CallSession) :
    ∀ m : CallMap, m.any (fun p => p.1 == k) = true →
      ((m.map (fun p => if p.1 == k then (k, v) else p)).find? (fun p => p.1 == k))
        = some (k, v) := by
  intro m
  induction m with
  | nil => intro h; simp at h
  | cons e t ih =>
    intro h
    rw [List.map_cons]
    by_cases hp : (e.1 == k) = true
    · rw [if_pos hp]
      rw [List.find?_cons_of_pos _ (by simp)]
    · rw [if_neg hp]
      have hskip : List.find? (fun p => p.1 == k)
            (e :: List.map (fun p => if p.1 == k then (k, v) else p) t)
          = List.find? (fun p => p.1 == k)
              (List.map (fun p => if p.1 == k then (k, v) else p) t) :=
        List.find?_cons_of_neg _ hp
      rw [hskip]
      apply ih
      rw [List.any_cons] at h
      rcases Bool.or_eq_true_iff.mp h with h1 | h1
      · exact absurd h1 hp
      · exact h1

theorem find?_append_fresh (k : String) (v : CallSession) :
    ∀ m : CallMap, m.any (fun p => p.1 == k) = false →
      ((m ++ [(k, v)]).find? (fun p => p.1 == k)) = some (k, v) := by
  intro m
  induction m with
  | nil => simp
  | cons e t ih =>
    intro h
    rw [List.any_cons] at h
    have hp : (e.1 == k) = false := by
      cases hq : (e.1 == k) with
      | false => rfl
      | true => rw [hq] at h; simp at h
    rw [List.cons_append]
    have hskip : List.find? (fun p => p.1 == k) (e :: (t ++ [(k, v)]))
        = List.find? (fun p => p.1 == k) (t ++ [(k, v)]) :=
      List.find?_cons_of_neg _ (by simp [hp])
    rw [hskip]
    apply ih
    rw [hp] at h
    simpa using h

/-- After an upsert the upserted session is what the key maps to: the session
is present in the registry, not deleted. -/
theorem jsLookup_jsSet (m : CallMap) (k : String) (v : CallSession) :
    jsLookup (jsSet m k v) k = some v := by
  unfold jsLookup jsSet
  split
  · rename_i h
    rw [find?_map_replace k v m h]
    rfl
  · rename_i h
    have h0 : m.any (fun p => p.1 == k) = false := by
      cases hq : m.any (fun p => p.1 == k) with
      | false => rfl
      | true => exact absurd hq h
    rw [find?_append_fresh k v m h0]
    rfl

theorem jsLookup_jsDelete_self (m : CallMap) (k : String) :
    jsLookup (jsDelete m k) k = none := by
  unfold jsLookup jsDelete
  have h : (m.filter (fun p => !(p.1 == k))).find? (fun p => p.1 == k) = none := by
    rw [List.find?_eq_none]
    intro x hx
    have hx2 := (List.mem_filter.mp hx).2
    simp only [Bool.not_eq_true'] at hx2
    simp [hx2]
  rw [h]
  rfl

theorem jsDelete_of_absent (m : CallMap) (k : String)
    (h : jsLookup m k = none) : jsDelete m k = m := by
  unfold jsLookup at h
  have hfind : m.find? (fun p => p.1 == k) = none := by
    cases hq : m.find? (fun p => p.1 == k) with
    | none => rfl
    | some p => rw [hq] at h; simp at h
  rw [List.find?_eq_none] at hfind
  unfold jsDelete
  rw [List.filter_eq_self]
  intro p hp
  have h2 := hfind p hp
  simp only [Bool.not_eq_true] at h2
  rw [h2]
  rfl

theorem jsDedupById_length_le (l : List TranscriptEntry) :
    (jsDedupById l).length ≤ l.length := by
  unfold jsDedupById
  rw [List.length_map]
  calc (l.enum.filter fun p => l.findIdx (fun u => u.id == p.2.id) == p.1).length
      ≤ l.enum.length := List.length_filter_le _ _
    _ = l.length := List.enum_length

theorem jsSortByTimestamp_length (l : List TranscriptEntry) :
    (jsSortByTimestamp l).length = l.length :=
  List.length_mergeSort l

/-- One handler step keeps the retained transcript list within 50 records,
provided an `initial_data` payload is itself within 50. -/
theorem handleMessage_transcripts_le (s : DashState) (m : WsMessage)
    (hs : s.transcripts.length ≤ 50) (hm : initialDataCapped m) :
    (handleMessage s m).transcripts.length ≤ 50 := by
  cases m with
  | initialData ts ac =>
    cases ts with
    | some l =>
      have hl : l.length ≤ 50 := hm
      have hbound : (jsDedupById (jsSortByTimestamp l)).length ≤ 50 := by
        calc (jsDedupById (jsSortByTimestamp l)).length
            ≤ (jsSortByTimestamp l).length := jsDedupById_length_le _
          _ = l.length := jsSortByTimestamp_length l
          _ ≤ 50 := hl
      cases ac with
      | some a => exact hbound
      | none => exact hbound
    | none =>
      cases ac with
      | some a => exact hs
      | none => exact hs
  | transcript d =>
    cases d with
    | some e =>
      show (handleTranscriptData s.transcripts e).length ≤ 50
      unfold handleTranscriptData
      split
      · exact hs
      · exact jsSliceLast_length_le 50 _
    | none => exact hs
  | callStatus d =>
    cases d with
    | some dd =>
      obtain ⟨cid0, sess0⟩ := dd
      cases sess0 with
      | some sess =>
        show ((if jsToLower sess.status == "ended" || jsToLower sess.status == "failed"
            then { transcripts := ([] : List TranscriptEntry),
                   activeCalls := jsSet s.activeCalls cid0 sess }
            else { s with activeCalls := jsSet s.activeCalls cid0 sess } :
              DashState)).transcripts.length ≤ 50
        split
        · simp
        · exact hs
      | none => exact hs
    | none => exact hs
  | callRemoved d =>
    cases d with
    | some dd =>
      obtain ⟨cidopt⟩ := dd
      cases cidopt with
      | some cid =>
        show ((if cid == "" then s
            else { transcripts := ([] : List TranscriptEntry),
                   activeCalls := jsDelete s.activeCalls cid } : DashState)).transcripts.length ≤ 50
        split
        · exact hs
        · simp
      | none => exact hs
    | none => exact hs
  | transcriptsCleared => show (0 : Nat) ≤ 50; omega
  | unknownType => exact hs

/-- A run of `transcript` messages only folds `handleTranscriptData` over the
retained list and leaves the registry untouched. -/
theorem foldl_transcript_msgs (fs : List TranscriptEntry) :
    ∀ s : DashState,
      (fs.map fun f => WsMessage.transcript (some f)).foldl handleMessage s
        = { s with transcripts := fs.foldl handleTranscriptData s.transcripts } := by
  induction fs with
  | nil => intro s; rfl
  | cons f rest ih =>
    intro s
    rw [List.map_cons, List.foldl_cons, List.foldl_cons]
    rw [ih]
    rfl

/-- Folding pairwise non-duplicate fragments over a small enough accumulator
retains exactly the last 50 of accumulator-plus-fragments, in arrival
order. -/
theorem foldl_handleTranscriptData_eq (fs : List TranscriptEntry) :
    ∀ acc : List TranscriptEntry, acc.length ≤ 50 →
      List.Pairwise (fun a b => nonDupPair a b = true) fs →
      (∀ b ∈ fs, ∀ a ∈ acc, isDupOf b a = false) →
      fs.foldl handleTranscriptData acc = jsSliceLast 50 (acc ++ fs) := by
  induction fs with
  | nil =>
    intro acc hlen _ _
    rw [List.foldl_nil, List.append_nil, jsSliceLast_of_length_le hlen]
  | cons f rest ih =>
    intro acc hlen hpw hacc
    rw [List.foldl_cons]
    have hnd : acc.any (isDupOf f) = false := by
      cases hq : acc.any (isDupOf f) with
      | false => rfl
      | true =>
        rw [List.any_eq_true] at hq
        obtain ⟨a, ha, hdup⟩ := hq
        have hfa := hacc f (List.mem_cons_self f rest) a ha
        rw [hfa] at hdup
        exact absurd hdup (by simp)
    have hstep : handleTranscriptData acc f = jsSliceLast 50 (acc ++ [f]) := by
      unfold handleTranscriptData
      rw [hnd]
      simp
    rw [hstep]
    have hpw' := (List.pairwise_cons.mp hpw).2
    have hhead := (List.pairwise_cons.mp hpw).1
    have hcond : ∀ b ∈ rest, ∀ a ∈ jsSliceLast 50 (acc ++ [f]), isDupOf b a = false := by
      intro b hb a ha
      rcases List.mem_append.mp (mem_of_mem_jsSliceLast ha) with h1 | h1
      · exact hacc b (List.mem_cons_of_mem f hb) a h1
      · have haf : a = f := by simpa using h1
        rw [haf]
        have hnp := hhead b hb
        simp only [nonDupPair, Bool.not_eq_true'] at hnp
        exact hnp
    rw [ih _ (jsSliceLast_length_le 50 _) hpw' hcond]
    rw [jsSliceLast_append, List.append_assoc]
    rfl

/-- Folding any capped message sequence from a state within capacity stays
within capacity. -/
theorem foldl_capacity_aux (msgs : List WsMessage) :
    ∀ s : DashState, s.transcripts.length ≤ 50 → (∀ m ∈ msgs, initialDataCapped m) →
      (msgs.foldl handleMessage s).transcripts.length ≤ 50 := by
  induction msgs with
  | nil => intro s hs _; exact hs
  | cons m rest ih =>
    intro s hs hcap
    rw [List.foldl_cons]
    exact ih (handleMessage s m)
      (handleMessage_transcripts_le s m hs (hcap m (List.mem_cons_self m rest)))
      (fun m' hm' => hcap m' (List.mem_cons_of_mem m hm'))

/-! The claim theorems. -/

/-- C1: processing a `transcript` message appends the carried fragment to the
retained list exactly when it is not a duplicate — where a fragment is a
duplicate exactly when some retained record has an identical id, or identical
role and text with timestamps differing by strictly less than one second —
and a duplicate leaves the list unchanged; in particular appending a
near-duplicate (same role/text, timestamp within 1s, different id) right
after the original leaves the store at length 1. -/
theorem c1_transcript_append_iff_not_duplicate (s : DashState) (d f1 f2 : TranscriptEntry)
    (hrole : f1.role = f2.role) (htext : f1.transcript = f2.transcript)
    (hts : (f1.timestampMs - f2.timestampMs).natAbs < 1000) (hid : f1.id ≠ f2.id) :
    ((handleMessage s (.transcript (some d))).transcripts
        = if specIsDuplicate s.transcripts d then s.transcripts
          else jsSliceLast 50 (s.transcripts ++ [d]))
      ∧ (handleTranscriptData (handleTranscriptData [] f1) f2).length = 1 := by
  constructor
  · have hred : (handleMessage s (.transcript (some d))).transcripts
        = handleTranscriptData s.transcripts d := rfl
    rw [hred]
    unfold handleTranscriptData
    by_cases h : specIsDuplicate s.transcripts d
    · rw [if_pos ((any_isDupOf_iff _ _).mpr h), if_pos h]
    · rw [if_neg (fun hc => h ((any_isDupOf_iff _ _).mp hc)), if_neg h]
  · have h1 : handleTranscriptData [] f1 = [f1] := by
      unfold handleTranscriptData
      simp [jsSliceLast]
    rw [h1]
    have h2 : ([f1].any (isDupOf f2)) = true := by
      simp [isDupOf, htext, hrole, hts]
    unfold handleTranscriptData
    rw [if_pos h2]
    rfl

/-- C1 witness: the near-duplicate pair `c6frag`, `c1frag2` satisfies the
hypotheses, and the theorem applies at them. -/
theorem c1_witness :
    (c6frag.role = c1frag2.role ∧ c6frag.transcript = c1frag2.transcript
      ∧ (c6frag.timestampMs - c1frag2.timestampMs).natAbs < 1000 ∧ c6frag.id ≠ c1frag2.id)
    ∧ (((handleMessage dashInit (.transcript (some c6frag))).transcripts
          = if specIsDuplicate dashInit.transcripts c6frag then dashInit.transcripts
            else jsSliceLast 50 (dashInit.transcripts ++ [c6frag]))
        ∧ (handleTranscriptData (handleTranscriptData [] c6frag) c1frag2).length = 1) :=
  ⟨⟨by decide, by decide, by decide, by decide⟩,
    c1_transcript_append_iff_not_duplicate dashInit c6frag c6frag c1frag2
      (by decide) (by decide) (by decide) (by decide)⟩

/-- C2 (amended): after any sequence of inbound messages in which every
`initial_data` message carries at most 50 transcripts, started within
capacity, the retained list never exceeds 50 records.  (The `transcript`
case alone always enforces this through `slice(-50)`.) -/
theorem c2_capacity_bound (msgs : List WsMessage) (s : DashState)
    (hs : s.transcripts.length ≤ 50) (hcap : ∀ m ∈ msgs, initialDataCapped m) :
    (msgs.foldl handleMessage s).transcripts.length ≤ 50 :=
  foldl_capacity_aux msgs s hs hcap

/-- C2 witness: the capped sequence `c2msgs` from the initial state. -/
theorem c2_witness :
    (dashInit.transcripts.length ≤ 50 ∧ ∀ m ∈ c2msgs, initialDataCapped m)
    ∧ (c2msgs.foldl handleMessage dashInit).transcripts.length ≤ 50 :=
  ⟨⟨by decide, by decide⟩, c2_capacity_bound c2msgs dashInit (by decide) (by decide)⟩

/-- C2 counterexample: the claim as stated is false — a single `initial_data`
message carrying 51 distinct-id transcripts leaves 51 retained records,
because the `initial_data` case performs no `slice(-50)` truncation. -/
theorem c2_counterexample :
    ¬ ((handleMessage dashInit (.initialData (some ts51) (some []))).transcripts.length ≤ 50) := by
  have h1 : (handleMessage dashInit (.initialData (some ts51) (some []))).transcripts
      = jsDedupById (jsSortByTimestamp ts51) := rfl
  have hn : (ts51.map (fun t => t.id)).Nodup := by decide
  have hperm : ((jsSortByTimestamp ts51).map (fun t => t.id)).Perm (ts51.map (fun t => t.id)) :=
    (jsSortByTimestamp_perm ts51).map _
  have hnodup : ((jsSortByTimestamp ts51).map (fun t => t.id)).Nodup :=
    hn.perm hperm.symm
  have h2 : jsDedupById (jsSortByTimestamp ts51) = jsSortByTimestamp ts51 := by
    rw [jsDedupById_eq_spec]
    exact specKeepFirstById_of_ids_nodup _ [] (by simp) hnodup
  rw [h1, h2, jsSortByTimestamp_length]
  decide

/-- C3 (amended): a `call_status` message whose session status lowercases to
`ended` or `failed` empties the retained transcript list and upserts that
session into the active-calls registry; the session is NOT deleted by this
message — it remains reachable under its callId (deletion happens only on a
later `call_removed` message). -/
theorem c3_terminal_callStatus (s : DashState) (cid : String) (sess : CallSession)
    (hterm : jsToLower sess.status = "ended" ∨ jsToLower sess.status = "failed") :
    (handleMessage s (.callStatus (some { call_id := cid, session := some sess }))).transcripts = []
      ∧ (handleMessage s (.callStatus (some { call_id := cid, session := some sess }))).activeCalls
          = jsSet s.activeCalls cid sess
      ∧ jsLookup (handleMessage s (.callStatus (some { call_id := cid, session := some sess }))).activeCalls cid
          = some sess := by
  have hcond : (jsToLower sess.status == "ended" || jsToLower sess.status == "failed") = true := by
    rcases hterm with h | h
    · rw [h]; simp
    · rw [h]; simp
  have hred : handleMessage s (.callStatus (some { call_id := cid, session := some sess }))
      = if jsToLower sess.status == "ended" || jsToLower sess.status == "failed"
        then { transcripts := [], activeCalls := jsSet s.activeCalls cid sess }
        else { s with activeCalls := jsSet s.activeCalls cid sess } := rfl
  rw [hred, if_pos hcond]
  exact ⟨rfl, rfl, jsLookup_jsSet s.activeCalls cid sess⟩

/-- C3 witness: the terminal session `c6sess` from the initial state. -/
theorem c3_witness :
    (jsToLower c6sess.status = "ended" ∨ jsToLower c6sess.status = "failed")
    ∧ ((handleMessage dashInit (.callStatus (some { call_id := "c1", session := some c6sess }))).transcripts = []
        ∧ (handleMessage dashInit (.callStatus (some { call_id := "c1", session := some c6sess }))).activeCalls
            = jsSet dashInit.activeCalls "c1" c6sess
        ∧ jsLookup (handleMessage dashInit
              (.callStatus (some { call_id := "c1", session := some c6sess }))).activeCalls "c1"
            = some c6sess) :=
  ⟨Or.inl (by decide), c3_terminal_callStatus dashInit "c1" c6sess (Or.inl (by decide))⟩

/-- C3 counterexample: the claim says the terminal `call_status` deletes the
session from the registry; processing one from the empty state leaves the
session present under c1 — the lookup is not `none`. -/
theorem c3_counterexample :
    jsLookup (handleMessage dashInit
        (.callStatus (some { call_id := "c1", session := some c6sess }))).activeCalls "c1"
      ≠ none := by decide

/-- C4 (amended): appending N > 50 pairwise non-duplicate fragments (one per
`transcript` message) retains exactly the last 50 appended, in insertion
order: the records evicted are the earliest appended regardless of timestamp,
and the retained list is kept in arrival order, not re-sorted by
timestamp. -/
theorem c4_eviction_by_insertion_order (fs : List TranscriptEntry)
    (hlen : 50 < fs.length)
    (hpw : List.Pairwise (fun a b => nonDupPair a b = true) fs) :
    ((fs.map fun f => WsMessage.transcript (some f)).foldl handleMessage dashInit).transcripts
        = fs.drop (fs.length - 50)
      ∧ ((fs.map fun f => WsMessage.transcript (some f)).foldl handleMessage dashInit).transcripts.length
          = 50 := by
  have h1 : ((fs.map fun f => WsMessage.transcript (some f)).foldl handleMessage dashInit).transcripts
      = fs.foldl handleTranscriptData [] := by
    rw [foldl_transcript_msgs]
    rfl
  have h2 : fs.foldl handleTranscriptData [] = jsSliceLast 50 ([] ++ fs) :=
    foldl_handleTranscriptData_eq fs [] (by simp) hpw (by intro b _ a ha; simp at ha)
  constructor
  · rw [h1, h2, List.nil_append]
    rfl
  · rw [h1, h2, List.nil_append]
    simp only [jsSliceLast, List.length_drop]
    omega

/-- C4 witness: the 51 descending-timestamp fragments are pairwise
non-duplicate and more than 50, and the theorem applies at them. -/
theorem c4_witness :
    (50 < fsDesc.length ∧ List.Pairwise (fun a b => nonDupPair a b = true) fsDesc)
    ∧ (((fsDesc.map fun f => WsMessage.transcript (some f)).foldl handleMessage dashInit).transcripts
          = fsDesc.drop (fsDesc.length - 50)
        ∧ ((fsDesc.map fun f => WsMessage.transcript (some f)).foldl handleMessage dashInit).transcripts.length
            = 50) :=
  ⟨⟨by decide, by decide⟩, c4_eviction_by_insertion_order fsDesc (by decide) (by decide)⟩

set_option maxRecDepth 20000 in
/-- C4 counterexample: with 51 non-duplicate fragments arriving in strictly
descending timestamp order, the evicted record is `mkFragDesc 0`, the NEWEST
by timestamp, so the 50 survivors are not the newest ones; nor are they
ordered ascending by timestamp. -/
theorem c4_counterexample :
    c4final.length = 50 ∧ mkFragDesc 0 ∉ c4final
      ∧ ¬ List.Pairwise (fun a b : TranscriptEntry => a.timestampMs ≤ b.timestampMs) c4final := by
  decide

/-- C5: an `initial_data` message carrying both fields replaces the
active-calls mapping with exactly the received mapping, and the retained
transcript list with the received transcripts sorted ascending by timestamp
and stripped of records whose id duplicates an earlier record's id (first
occurrence kept): the result equals the keep-first-by-id dedup of the sorted
payload, is sorted ascending by timestamp, has pairwise distinct ids, draws
every record from the received payload, and keeps a record for every received
id. -/
theorem c5_initialData_replaces (s : DashState) (ts : List TranscriptEntry) (ac : CallMap) :
    (handleMessage s (.initialData (some ts) (some ac))).activeCalls = ac
      ∧ (handleMessage s (.initialData (some ts) (some ac))).transcripts
          = specKeepFirstById [] (jsSortByTimestamp ts)
      ∧ (handleMessage s (.initialData (some ts) (some ac))).transcripts.Sorted
          (fun a b : TranscriptEntry => a.timestampMs ≤ b.timestampMs)
      ∧ ((handleMessage s (.initialData (some ts) (some ac))).transcripts.map (fun t => t.id)).Nodup
      ∧ (∀ u ∈ (handleMessage s (.initialData (some ts) (some ac))).transcripts, u ∈ ts)
      ∧ (∀ t ∈ ts, ∃ u ∈ (handleMessage s (.initialData (some ts) (some ac))).transcripts,
          u.id = t.id) := by
  have hred : (handleMessage s (.initialData (some ts) (some ac))).transcripts
      = jsDedupById (jsSortByTimestamp ts) := rfl
  have heq : jsDedupById (jsSortByTimestamp ts) = specKeepFirstById [] (jsSortByTimestamp ts) :=
    jsDedupById_eq_spec _
  have hsub : (specKeepFirstById [] (jsSortByTimestamp ts)).Sublist (jsSortByTimestamp ts) :=
    specKeepFirstById_sublist _ _
  refine ⟨rfl, by rw [hred, heq], ?_, ?_, ?_, ?_⟩
  · rw [hred, heq]
    exact List.Pairwise.sublist hsub (sorted_jsSortByTimestamp ts)
  · rw [hred, heq]
    exact specKeepFirstById_ids_nodup _ _
  · intro u hu
    rw [hred, heq] at hu
    exact (jsSortByTimestamp_perm ts).mem_iff.mp (List.Sublist.mem hu hsub)
  · intro t ht
    have ht2 : t ∈ jsSortByTimestamp ts := (jsSortByTimestamp_perm ts).mem_iff.mpr ht
    obtain ⟨u, hu, hid2⟩ := specKeepFirstById_covers (jsSortByTimestamp ts) [] t ht2 (by simp)
    rw [hred, heq]
    exact ⟨u, hu, hid2⟩

/-- C5 witness: the theorem applied at the initial state and a one-fragment,
one-session payload. -/
theorem c5_witness :
    (handleMessage dashInit (.initialData (some [c6frag]) (some [("c1", c6sess)]))).activeCalls
        = [("c1", c6sess)]
      ∧ (handleMessage dashInit (.initialData (some [c6frag]) (some [("c1", c6sess)]))).transcripts
          = specKeepFirstById [] (jsSortByTimestamp [c6frag])
      ∧ (handleMessage dashInit (.initialData (some [c6frag]) (some [("c1", c6sess)]))).transcripts.Sorted
          (fun a b : TranscriptEntry => a.timestampMs ≤ b.timestampMs)
      ∧ ((handleMessage dashInit
            (.initialData (some [c6frag]) (some [("c1", c6sess)]))).transcripts.map (fun t => t.id)).Nodup
      ∧ (∀ u ∈ (handleMessage dashInit
            (.initialData (some [c6frag]) (some [("c1", c6sess)]))).transcripts, u ∈ [c6frag])
      ∧ (∀ t ∈ [c6frag], ∃ u ∈ (handleMessage dashInit
            (.initialData (some [c6frag]) (some [("c1", c6sess)]))).transcripts, u.id = t.id) :=
  c5_initialData_replaces dashInit [c6frag] [("c1", c6sess)]

/-- C6: processing, in order, the `transcript` message for fragment a1 of
call c1, a terminal `call_status` for c1, `transcripts_cleared`, and
`call_removed` for c1 leaves both the retained transcript list and the
active-calls mapping empty. -/
theorem c6_concrete_scenario :
    (c6msgs.foldl handleMessage dashInit).transcripts = []
      ∧ (c6msgs.foldl handleMessage dashInit).activeCalls = [] := by
  decide

/-- C7 (amended): a `call_removed` message naming a NON-EMPTY callId removes
the named call from the active-calls mapping (the key no longer resolves) and
empties the retained transcript list; removal is idempotent — for a callId
absent from the mapping the mapping is unchanged and no error is raised (the
transcript list is still cleared).  An empty-string callId is falsy under the
source guard `message.data?.call_id`, so such a message is skipped
entirely. -/
theorem c7_callRemoved (s : DashState) (cid : String) (hcid : cid ≠ "") :
    (handleMessage s (.callRemoved (some { call_id := some cid }))).transcripts = []
      ∧ (handleMessage s (.callRemoved (some { call_id := some cid }))).activeCalls
          = jsDelete s.activeCalls cid
      ∧ jsLookup (handleMessage s (.callRemoved (some { call_id := some cid }))).activeCalls cid = none
      ∧ (jsLookup s.activeCalls cid = none →
          (handleMessage s (.callRemoved (some { call_id := some cid }))).activeCalls
            = s.activeCalls) := by
  have hbeq : (cid == "") = false := by
    rw [beq_eq_false_iff_ne]; exact hcid
  have hred : handleMessage s (.callRemoved (some { call_id := some cid }))
      = if cid == "" then s
        else { transcripts := [], activeCalls := jsDelete s.activeCalls cid } := rfl
  rw [hred, if_neg (by simp [hbeq])]
  exact ⟨rfl, rfl, jsLookup_jsDelete_self s.activeCalls cid,
    fun h => jsDelete_of_absent s.activeCalls cid h⟩

/-- C7 witness: removing call c1 (absent) from the initial state. -/
theorem c7_witness :
    ("c1" ≠ "")
    ∧ ((handleMessage dashInit (.callRemoved (some { call_id := some "c1" }))).transcripts = []
        ∧ (handleMessage dashInit (.callRemoved (some { call_id := some "c1" }))).activeCalls
            = jsDelete dashInit.activeCalls "c1"
        ∧ jsLookup (handleMessage dashInit
              (.callRemoved (some { call_id := some "c1" }))).activeCalls "c1" = none
        ∧ (jsLookup dashInit.activeCalls "c1" = none →
            (handleMessage dashInit (.callRemoved (some { call_id := some "c1" }))).activeCalls
              = dashInit.activeCalls)) :=
  ⟨by decide, c7_callRemoved dashInit "c1" (by decide)⟩

/-- C7 counterexample: the claim as stated covers every `call_removed`
message, but an empty-string callId is falsy under the source guard
`message.data?.call_id`, so the whole case is skipped: from a state holding
one transcript, processing `call_removed` with call_id "" leaves the retained
transcript list NOT emptied (and raises no error). -/
theorem c7_counterexample :
    (handleMessage { transcripts := [c6frag], activeCalls := [] }
        (.callRemoved (some { call_id := some "" }))).transcripts ≠ [] := by
  decide

/-- C8: upsert of a call session is idempotent — processing the same
`call_status` message twice in succession yields exactly the state produced
by processing it once. -/
theorem c8_callStatus_idempotent (s : DashState) (d : Option CallStatusData) :
    handleMessage (handleMessage s (.callStatus d)) (.callStatus d)
      = handleMessage s (.callStatus d) := by
  cases d with
  | none => rfl
  | some dd =>
    obtain ⟨cid, sess⟩ := dd
    cases sess with
    | none => rfl
    | some sess =>
      by_cases hcond : (jsToLower sess.status == "ended" || jsToLower sess.status == "failed") = true
      · have key : ∀ s' : DashState,
            handleMessage s' (.callStatus (some { call_id := cid, session := some sess }))
              = { transcripts := [], activeCalls := jsSet s'.activeCalls cid sess } := by
          intro s'
          have hred : handleMessage s' (.callStatus (some { call_id := cid, session := some sess }))
              = if jsToLower sess.status == "ended" || jsToLower sess.status == "failed"
                then { transcripts := [], activeCalls := jsSet s'.activeCalls cid sess }
                else { s' with activeCalls := jsSet s'.activeCalls cid sess } := rfl
          rw [hred, if_pos hcond]
        rw [key, key]
        show ({ transcripts := [], activeCalls := jsSet (jsSet s.activeCalls cid sess) cid sess }
            : DashState)
          = { transcripts := [], activeCalls := jsSet s.activeCalls cid sess }
        rw [jsSet_idem]
      · have key : ∀ s' : DashState,
            handleMessage s' (.callStatus (some { call_id := cid, session := some sess }))
              = { transcripts := s'.transcripts, activeCalls := jsSet s'.activeCalls cid sess } := by
          intro s'
          have hred : handleMessage s' (.callStatus (some { call_id := cid, session := some sess }))
              = if jsToLower sess.status == "ended" || jsToLower sess.status == "failed"
                then { transcripts := [], activeCalls := jsSet s'.activeCalls cid sess }
                else { s' with activeCalls := jsSet s'.activeCalls cid sess } := rfl
          rw [hred, if_neg hcond]
        rw [key, key]
        show ({ transcripts := s.transcripts,
                activeCalls := jsSet (jsSet s.activeCalls cid sess) cid sess } : DashState)
          = { transcripts := s.transcripts, activeCalls := jsSet s.activeCalls cid sess }
        rw [jsSet_idem]

/-- C9: a frame that is not valid JSON, a parsed message of unknown type, a
`transcript` message without `data`, a `call_removed` message without `data`
or whose `data` has no `call_id`, and a `call_status` message without `data`
or whose `data` has no `session` all propagate no exception and leave the
state — retained transcript list and active-calls mapping — exactly
unchanged. -/
theorem c9_malformed_inputs_no_effect (s : DashState) (cid : String) :
    handleFrame s .malformedJson = s
      ∧ handleMessage s .unknownType = s
      ∧ handleMessage s (.transcript none) = s
      ∧ handleMessage s (.callRemoved none) = s
      ∧ handleMessage s (.callRemoved (some { call_id := none })) = s
      ∧ handleMessage s (.callStatus none) = s
      ∧ handleMessage s (.callStatus (some { call_id := cid, session := none })) = s :=
  ⟨rfl, rfl, rfl, rfl, rfl, rfl, rfl⟩

/-- C10: a `transcripts_cleared` message empties the retained transcript list
and leaves the active-calls mapping unchanged. -/
theorem c10_transcriptsCleared (s : DashState) :
    (handleMessage s .transcriptsCleared).transcripts = []
      ∧ (handleMessage s .transcriptsCleared).activeCalls = s.activeCalls :=
  ⟨rfl, rfl⟩
